import Mathlib

/-!
Verification of the flat vector index implemented by the two (near-duplicate)
classes `Cohere_Embedding` (src/Cohere_Embedding.py) and `OpenAI_Embedding`
(src/openai_embedding.py).

Modelling conventions (shallow embedding):
* Vector components are rationals `ℚ`: every claim under study is about
  counting, ordering, append structure and exact equality of stored values,
  not about float32 rounding, and `np.save`/`np.load` round-trips float32
  values exactly, so an exact scalar type is a faithful carrier.
* The remote embedding API (`get_embedding`) is an HTTP call; per the spec's
  collaborator contract the provider returns one vector per input text,
  positionally.  It is modelled by an arbitrary function `embed : String → Vec`
  supplied as a parameter; `np.array(..., dtype=np.float32)` over the response
  raises `ValueError` on a ragged result, which the model keeps.
* The file system slot for one index name is an `IndexSlot`: one `Option`
  per artifact (`{name}.faiss`, `chunks/{name}.json`,
  `embeddings/{name}.npy`), `none` meaning that file is absent.  `load_index`
  reads them in source order: `faiss.read_index` first, whose failure on a
  missing file is faiss's untyped `RuntimeError` (SWIG translates the C++
  `FaissException`; it is not a `FileNotFoundError`), then `open` and
  `np.load`, which raise `FileNotFoundError` when their file is missing.
  `save_index` is the only writing step in the source (it is the last
  statement of `create_faiss_index`/`update_index`), so an operation that
  raises before reaching it leaves the slot unchanged; `update_index_fs`
  makes that file-system effect explicit.
* Python exceptions are values of `PyErr`.  The source defines no exception
  classes of its own; `dimensionMismatch` is the error kind named by the spec
  and is included so that statements about it can be expressed — the only
  place that can produce it is the spec-modelled FAISS query-shape check.
* Timestamps (`created_at`, `updated_at`) and the provider-configuration
  fields of the metadata dict are not modelled; no claim under study
  mentions them.
-/

instance {ε α : Type _} [DecidableEq ε] [DecidableEq α] :
    DecidableEq (Except ε α) := fun x y =>
  match x, y with
  | .ok a, .ok b =>
    if h : a = b then isTrue (by rw [h])
    else isFalse (by intro hh; cases hh; exact h rfl)
  | .error a, .error b =>
    if h : a = b then isTrue (by rw [h])
    else isFalse (by intro hh; cases hh; exact h rfl)
  | .ok _, .error _ => isFalse (by intro hh; cases hh)
  | .error _, .ok _ => isFalse (by intro hh; cases hh)

/-- A vector: one row of the embedding matrix (`np.ndarray` row). -/
abbrev Vec := List ℚ

/-- One entry of the `chunks` list in the metadata dict: `{id, text, embedding_index}`. -/
structure Chunk where
  id : Nat
  text : String
  embedding_index : Nat
deriving DecidableEq

/-- The chunks-metadata dict: `total_chunks`, the `chunks` list, and (OpenAI
class only) the recorded `embedding_dim` key (`none` when the key is absent,
as in the Cohere class). -/
structure ChunksMetadata where
  total_chunks : Nat
  chunks : List Chunk
  embedding_dim : Option Nat
deriving DecidableEq

/-- A `faiss.IndexFlatL2` object: its fixed dimension `d` and the rows added
to it, in order (`xb`, FAISS's name for the stored base vectors). -/
structure FaissIndex where
  d : Nat
  xb : List Vec
deriving DecidableEq

/-- Python exception kinds reachable in the modelled code paths.
`runtimeError` is faiss's untyped `RuntimeError` (e.g. `faiss.read_index` on
a missing file).  `dimensionMismatch` and `notFound` are the typed errors
named by the spec; the source never raises either (no such classes exist in
the code) — they are included only so statements about them can be
expressed. -/
inductive PyErr where
  | fileNotFound
  | valueError
  | faissAssert
  | indexError
  | runtimeError
  | dimensionMismatch
  | notFound
deriving DecidableEq

/-- The three artifacts `save_index` writes for one index name:
`{name}.faiss`, `chunks/{name}.json`, `embeddings/{name}.npy`. -/
structure PersistedIndex where
  faiss : FaissIndex
  metadata : ChunksMetadata
  embeddings : List Vec
deriving DecidableEq

/-- The file-system slot for one index name: each of the three artifact
files may independently be present or absent. -/
structure IndexSlot where
  faissFile : Option FaissIndex
  chunksFile : Option ChunksMetadata
  embeddingsFile : Option (List Vec)
deriving DecidableEq

/-- The slot state with all three artifacts present, as `save_index` leaves
it. -/
def PersistedIndex.slot (p : PersistedIndex) : IndexSlot :=
  ⟨some p.faiss, some p.metadata, some p.embeddings⟩

/-- All rows of a matrix have equal length — the condition under which
`np.array(rows, dtype=np.float32)` and `np.vstack` accept the data instead of
raising `ValueError`. -/
def sameRowLengths (rows : List Vec) : Prop :=
  ∀ v ∈ rows, ∀ w ∈ rows, v.length = w.length

instance (rows : List Vec) : Decidable (sameRowLengths rows) :=
  inferInstanceAs (Decidable (∀ v ∈ rows, ∀ w ∈ rows, v.length = w.length))

/-- Model of `np.vstack([a, b])`: concatenates the rows; raises `ValueError`
unless the column counts agree (stated as uniformity of the concatenation —
the inputs, being ndarrays, are uniform already). -/
def vstack (a b : List Vec) : Except PyErr (List Vec) :=
  if sameRowLengths (a ++ b) then .ok (a ++ b) else .error .valueError

/-- Model of `embeddings.shape[1]`: the column count of a 2-D ndarray.  An
empty result has shape `(0,)`, so indexing axis 1 raises `IndexError`. -/
def shape1 : List Vec → Except PyErr Nat
  | [] => .error .indexError
  | v :: _ => .ok v.length

/-- Model of `faiss.IndexFlatL2(d)`: an empty flat L2 index of dimension `d`. -/
def IndexFlatL2 (d : Nat) : FaissIndex :=
  ⟨d, []⟩

/-- Model of `index.add(xs)`: FAISS asserts every added row has length `d`. -/
def FaissIndex.add (idx : FaissIndex) (xs : List Vec) : Except PyErr FaissIndex :=
  if ∀ v ∈ xs, v.length = idx.d then .ok ⟨idx.d, idx.xb ++ xs⟩ else .error .faissAssert

/-- Squared Euclidean distance between a query and a stored row (exact, over
the modelled scalars). -/
def sqdist (q v : Vec) : ℚ :=
  ((List.zipWith (fun a b => a - b) q v).map (fun x => x * x)).sum

/-- Order on (distance, row id) pairs: ascending distance, ties broken by the
lower row id. -/
def distLe (a b : ℚ × Nat) : Prop :=
  a.1 < b.1 ∨ (a.1 = b.1 ∧ a.2 ≤ b.2)

instance : DecidableRel distLe := fun a b =>
  inferInstanceAs (Decidable (a.1 < b.1 ∨ (a.1 = b.1 ∧ a.2 ≤ b.2)))

instance : IsTotal (ℚ × Nat) distLe :=
  ⟨fun a b => by
    unfold distLe
    rcases lt_trichotomy a.1 b.1 with h | h | h
    · exact Or.inl (Or.inl h)
    · rcases Nat.le_total a.2 b.2 with h2 | h2
      · exact Or.inl (Or.inr ⟨h, h2⟩)
      · exact Or.inr (Or.inr ⟨h.symm, h2⟩)
    · exact Or.inr (Or.inl h)⟩

instance : IsTrans (ℚ × Nat) distLe :=
  ⟨fun a b c hab hbc => by
    unfold distLe at *
    rcases hab with h1 | ⟨h1, h1'⟩ <;> rcases hbc with h2 | ⟨h2, h2'⟩
    · exact Or.inl (h1.trans h2)
    · exact Or.inl (h2 ▸ h1)
    · exact Or.inl (h1 ▸ h2)
    · exact Or.inr ⟨h1.trans h2, h1'.trans h2'⟩⟩

/-- Each stored row paired with its squared distance to the query, tagged
with its row id. -/
def scoredOf (q : Vec) (xb : List Vec) : List (ℚ × Nat) :=
  (List.range xb.length).map (fun i => (sqdist q (xb.getD i []), i))

/-- Modelled from the spec: the search kernel of `faiss.IndexFlatL2` (the
`index.search(query, k)` call).  The FAISS library is external code absent
from the repository, so the scan is taken from the spec's algorithm: squared
Euclidean distance to every stored vector, the `k` smallest selected, ordered
ascending with ties broken by the lowest row id; with fewer than `k` stored
vectors all of them are returned; a query whose length differs from the index
dimension fails (the spec names that failure `DimensionMismatch`). -/
def knn (q : Vec) (xb : List Vec) (k : Nat) : List (ℚ × Nat) :=
  (List.insertionSort distLe (scoredOf q xb)).take k

/-- Modelled from the spec: `index.search` checks the query shape against the
index dimension, then runs the flat scan `knn`. -/
def FaissIndex.search (idx : FaissIndex) (q : Vec) (k : Nat) :
    Except PyErr (List (ℚ × Nat)) :=
  if q.length = idx.d then .ok (knn q idx.xb k) else .error .dimensionMismatch

/-- Model of `get_embedding` (both classes): the provider returns one vector
per text, positionally; `np.array(..., dtype=np.float32)` raises `ValueError`
on a ragged result. -/
def get_embedding (embed : String → Vec) (texts : List String) :
    Except PyErr (List Vec) :=
  if sameRowLengths (texts.map embed) then .ok (texts.map embed)
  else .error .valueError

/-- Model of `save_index` (both classes): writes the three artifacts for the
name as one slot value.  JSON and `.npy` serialization round-trip the modelled
components (chunk ids, texts, float32 rows) losslessly. -/
def save_index (index : FaissIndex) (chunks_metadata : ChunksMetadata)
    (embeddings : List Vec) : PersistedIndex :=
  ⟨index, chunks_metadata, embeddings⟩

/-- Model of `load_index` (both classes): reads the three artifacts back in
source order.  `faiss.read_index` runs first and raises faiss's untyped
`RuntimeError` when `{name}.faiss` is missing; the subsequent `open` of the
chunks JSON and `np.load` of the embeddings raise `FileNotFoundError` when
their file is missing.  The source performs no consistency check of any kind
on what it reads. -/
def load_index (st : IndexSlot) :
    Except PyErr (FaissIndex × ChunksMetadata × List Vec) :=
  match st.faissFile with
  | none => .error .runtimeError
  | some index =>
    match st.chunksFile with
    | none => .error .fileNotFound
    | some chunks_metadata =>
      match st.embeddingsFile with
      | none => .error .fileNotFound
      | some embeddings => .ok (index, chunks_metadata, embeddings)

/-- One result dict of the `search` loop body. -/
structure SearchResult where
  chunk_id : Nat
  text : String
  distance : ℚ
  score : ℚ
  rank : Nat
deriving DecidableEq

/-- The dict built for one hit: `{chunk_id, text, distance, score, rank}`
with `score = 1 / (1 + distance)`. -/
def mkResult (c : Chunk) (dist : ℚ) (rank : Nat) : SearchResult :=
  ⟨c.id, c.text, dist, 1 / (1 + dist), rank⟩

/-- The `for i, (dist, idx) in enumerate(zip(...))` loop of `search`:
looks each returned row id up in the chunks list (Python raises `IndexError`
past the end) and builds the result dicts with 1-based ranks from `i0 + 1`. -/
def buildResults (chunks : List Chunk) :
    List (ℚ × Nat) → Nat → Except PyErr (List SearchResult)
  | [], _ => .ok []
  | (dist, idx) :: rest, i =>
    match chunks[idx]? with
    | none => .error .indexError
    | some c =>
      match buildResults chunks rest (i + 1) with
      | .error e => .error e
      | .ok tail => .ok (mkResult c dist (i + 1) :: tail)

/-- Shared body of `Cohere_Embedding.search` and `OpenAI_Embedding.search`
(the two methods are verbatim duplicates): load the index and metadata, embed
the query, run the FAISS scan, assemble the result dicts. -/
def searchCore (embed : String → Vec) (st : IndexSlot)
    (query : String) (k : Nat) : Except PyErr (List SearchResult) :=
  match load_index st with
  | .error e => .error e
  | .ok (index, chunks_metadata, _embeddings) =>
    match index.search (embed query) k with
    | .error e => .error e
    | .ok pairs => buildResults chunks_metadata.chunks pairs 0

namespace Cohere_Embedding

/-- Model of `Cohere_Embedding.create_faiss_index`: embeds the texts, builds a
fresh `IndexFlatL2(self.embedding_dim)`, adds all rows, writes the metadata
with ids `0..n-1` and `embedding_index = id`, and saves.  Returns the pair the
method returns together with the saved slot value. -/
def create_faiss_index (embedding_dim : Nat) (embed : String → Vec)
    (texts : List String) :
    Except PyErr (FaissIndex × ChunksMetadata × PersistedIndex) :=
  match get_embedding embed texts with
  | .error e => .error e
  | .ok embeddings =>
    match (IndexFlatL2 embedding_dim).add embeddings with
    | .error e => .error e
    | .ok index =>
      let chunks_metadata : ChunksMetadata :=
        ⟨texts.length, texts.mapIdx (fun i text => ⟨i, text, i⟩), none⟩
      .ok (index, chunks_metadata, save_index index chunks_metadata embeddings)

/-- Model of `Cohere_Embedding.update_index`: loads the index; the
`try/except FileNotFoundError` catches exactly `FileNotFoundError` (a
missing chunks JSON or embeddings file) and falls back to
`create_faiss_index` with the new texts, while any other exception — in
particular faiss's `RuntimeError` on a missing `{name}.faiss` — propagates
to the caller; otherwise stacks the new rows under the stored ones, rebuilds
a fresh `IndexFlatL2(self.embedding_dim)` over the full stack, extends the
chunks list with ids continuing from `len(chunks)`, updates `total_chunks`,
and saves.  Returns the triple saved on disk by the successful call. -/
def update_index (embedding_dim : Nat) (embed : String → Vec)
    (st : IndexSlot) (new_texts : List String) :
    Except PyErr PersistedIndex :=
  match load_index st with
  | .error .fileNotFound =>
    (create_faiss_index embedding_dim embed new_texts).map (fun r => r.2.2)
  | .error e => .error e
  | .ok (_index, chunks_metadata, embeddings) =>
    match get_embedding embed new_texts with
    | .error e => .error e
    | .ok new_embeddings =>
      match vstack embeddings new_embeddings with
      | .error e => .error e
      | .ok embeddings2 =>
        match (IndexFlatL2 embedding_dim).add embeddings2 with
        | .error e => .error e
        | .ok index =>
          let start_id := chunks_metadata.chunks.length
          let new_chunks :=
            new_texts.mapIdx (fun i text => ⟨start_id + i, text, start_id + i⟩)
          let chunks := chunks_metadata.chunks ++ new_chunks
          .ok (save_index index
            ⟨chunks.length, chunks, chunks_metadata.embedding_dim⟩ embeddings2)

/-- The file-system slot after a call to `update_index`: the source writes
only in `save_index`, its last statement, so an exception leaves the slot as
it was. -/
def update_index_fs (embedding_dim : Nat) (embed : String → Vec)
    (st : IndexSlot) (new_texts : List String) : IndexSlot :=
  match update_index embedding_dim embed st new_texts with
  | .ok p => p.slot
  | .error _ => st

/-- Model of `Cohere_Embedding.search` (verbatim duplicate of the OpenAI
method). -/
def search (embed : String → Vec) (st : IndexSlot)
    (query : String) (k : Nat) : Except PyErr (List SearchResult) :=
  searchCore embed st query k

end Cohere_Embedding

namespace OpenAI_Embedding

/-- Model of `OpenAI_Embedding.create_faiss_index`: unlike the Cohere class it
derives `actual_dim = embeddings.shape[1]` from the returned matrix, builds
`IndexFlatL2(actual_dim)`, and records `embedding_dim` in the metadata. -/
def create_faiss_index (embed : String → Vec) (texts : List String) :
    Except PyErr (FaissIndex × ChunksMetadata × PersistedIndex) :=
  match get_embedding embed texts with
  | .error e => .error e
  | .ok embeddings =>
    match shape1 embeddings with
    | .error e => .error e
    | .ok actual_dim =>
      match (IndexFlatL2 actual_dim).add embeddings with
      | .error e => .error e
      | .ok index =>
        let chunks_metadata : ChunksMetadata :=
          ⟨texts.length, texts.mapIdx (fun i text => ⟨i, text, i⟩),
            some actual_dim⟩
        .ok (index, chunks_metadata,
          save_index index chunks_metadata embeddings)

/-- Model of `OpenAI_Embedding.update_index`: same `except
FileNotFoundError` fallback-to-create as the Cohere variant (any other
exception, such as faiss's `RuntimeError` on a missing `.faiss` file,
propagates); re-derives `actual_dim = embeddings.shape[1]` from the stacked
matrix, rebuilds `IndexFlatL2(actual_dim)`, and overwrites the metadata's
`embedding_dim` with the re-derived value. -/
def update_index (embed : String → Vec) (st : IndexSlot)
    (new_texts : List String) : Except PyErr PersistedIndex :=
  match load_index st with
  | .error .fileNotFound =>
    (create_faiss_index embed new_texts).map (fun r => r.2.2)
  | .error e => .error e
  | .ok (_index, chunks_metadata, embeddings) =>
    match get_embedding embed new_texts with
    | .error e => .error e
    | .ok new_embeddings =>
      match vstack embeddings new_embeddings with
      | .error e => .error e
      | .ok embeddings2 =>
        match shape1 embeddings2 with
        | .error e => .error e
        | .ok actual_dim =>
          match (IndexFlatL2 actual_dim).add embeddings2 with
          | .error e => .error e
          | .ok index =>
            let start_id := chunks_metadata.chunks.length
            let new_chunks :=
              new_texts.mapIdx (fun i text => ⟨start_id + i, text, start_id + i⟩)
            let chunks := chunks_metadata.chunks ++ new_chunks
            .ok (save_index index ⟨chunks.length, chunks, some actual_dim⟩
              embeddings2)

/-- The file-system slot after a call to `update_index` (see the Cohere
variant). -/
def update_index_fs (embed : String → Vec) (st : IndexSlot)
    (new_texts : List String) : IndexSlot :=
  match update_index embed st new_texts with
  | .ok p => p.slot
  | .error _ => st

/-- Model of `OpenAI_Embedding.search` (verbatim duplicate of the Cohere
method). -/
def search (embed : String → Vec) (st : IndexSlot)
    (query : String) (k : Nat) : Except PyErr (List SearchResult) :=
  searchCore embed st query k

end OpenAI_Embedding

/-- Default chunk used only as the out-of-range placeholder of `List.getD`
in statements (every use is guarded by a bound). -/
def dChunk : Chunk :=
  ⟨0, "", 0⟩

/-- Default search result used as the `List.getD` placeholder in statements. -/
def dRes : SearchResult :=
  ⟨0, "", 0, 0, 0⟩

/-- The central invariant of claim C1, exactly as the spec states it:
`total_chunks` equals the length of the chunks list and the row count of the
stored embedding array, chunk ids are `0..n-1` in insertion order, and
`chunks[i].embedding_index == i`. -/
def CentralInv (p : PersistedIndex) : Prop :=
  p.metadata.total_chunks = p.metadata.chunks.length ∧
  p.metadata.total_chunks = p.embeddings.length ∧
  ∀ i < p.metadata.chunks.length,
    (p.metadata.chunks.getD i dChunk).id = i ∧
    (p.metadata.chunks.getD i dChunk).embedding_index = i

/-- Full well-formedness of a persisted slot, as established by every
successful `create_faiss_index`/`update_index`: the central invariant, the
FAISS index holding exactly the rows of the stored embedding array, and every
row having the index's dimension. -/
def WF (p : PersistedIndex) : Prop :=
  CentralInv p ∧ p.faiss.xb = p.embeddings ∧ ∀ v ∈ p.embeddings, v.length = p.faiss.d

instance (p : PersistedIndex) : Decidable (CentralInv p) := by
  unfold CentralInv
  infer_instance

instance (p : PersistedIndex) : Decidable (WF p) := by
  unfold WF
  infer_instance

/-- What claim C2 asserts of the result list `rs` of `search` on state `p`
with query vector `qv`: correct length, 1-based ranks, `score = 1/(1+dist)`,
each hit carrying the distance from the query to its own stored row and the
text of its own chunk, ascending distances with ties broken by the lower
chunk id, and every omitted stored row at least as far (in the (distance, id)
order) as every returned hit. -/
def ResultsSpec (p : PersistedIndex) (qv : Vec) (k : Nat)
    (rs : List SearchResult) : Prop :=
  rs.length = min k p.embeddings.length ∧
  (∀ j < rs.length, (rs.getD j dRes).rank = j + 1) ∧
  (∀ j < rs.length,
    (rs.getD j dRes).score = 1 / (1 + (rs.getD j dRes).distance)) ∧
  (∀ j < rs.length,
    (rs.getD j dRes).chunk_id < p.metadata.chunks.length ∧
    (rs.getD j dRes).chunk_id < p.embeddings.length ∧
    (rs.getD j dRes).distance =
      sqdist qv (p.embeddings.getD (rs.getD j dRes).chunk_id []) ∧
    (rs.getD j dRes).text =
      (p.metadata.chunks.getD (rs.getD j dRes).chunk_id dChunk).text) ∧
  (∀ j j', j < j' → j' < rs.length →
    (rs.getD j dRes).distance < (rs.getD j' dRes).distance ∨
    ((rs.getD j dRes).distance = (rs.getD j' dRes).distance ∧
     (rs.getD j dRes).chunk_id < (rs.getD j' dRes).chunk_id)) ∧
  (∀ m < p.embeddings.length,
    (∀ j < rs.length, (rs.getD j dRes).chunk_id ≠ m) →
    ∀ j < rs.length,
      distLe ((rs.getD j dRes).distance, (rs.getD j dRes).chunk_id)
        (sqdist qv (p.embeddings.getD m []), m))

/-- Concrete embedding provider used by the witnesses: every text maps to the
dimension-2 vector `[1, 0]`. -/
def embedA : String → Vec := fun _ => [1, 0]

/-- Concrete embedding provider returning dimension-3 vectors, used to
exercise dimension mismatches against dimension-2 states. -/
def embedB : String → Vec := fun _ => [1, 0, 0]

/-- A concrete well-formed two-chunk persisted state (dimension 2). -/
def pW : PersistedIndex :=
  ⟨⟨2, [[3, 0], [1, 0]]⟩,
   ⟨2, [⟨0, "a", 0⟩, ⟨1, "b", 1⟩], none⟩,
   [[3, 0], [1, 0]]⟩

/-- A concrete one-chunk persisted state (dimension 2), as
`create_faiss_index 2 embedA ["a"]` saves it. -/
def pW1 : PersistedIndex :=
  ⟨⟨2, [[1, 0]]⟩, ⟨1, [⟨0, "a", 0⟩], none⟩, [[1, 0]]⟩

/-- A concrete corrupt persisted state: `total_chunks = 2` but only one
embedding row is stored. -/
def pBad : PersistedIndex :=
  ⟨⟨2, [[1, 0]]⟩, ⟨2, [⟨0, "a", 0⟩, ⟨1, "b", 1⟩], none⟩, [[1, 0]]⟩

/-- The chunk dicts the update loop builds for the new texts: ids and
embedding indexes continuing from `s` (`start_id` in the source). -/
def newChunksFrom (s : Nat) (texts : List String) : List Chunk :=
  texts.mapIdx (fun i text => ⟨s + i, text, s + i⟩)

theorem cohere_create_ok_iff {dim : Nat} {embed : String → Vec}
    {texts : List String} {r : FaissIndex × ChunksMetadata × PersistedIndex} :
    Cohere_Embedding.create_faiss_index dim embed texts = .ok r ↔
      sameRowLengths (texts.map embed) ∧
      (∀ v ∈ texts.map embed, v.length = dim) ∧
      r = (⟨dim, texts.map embed⟩,
           ⟨texts.length, texts.mapIdx (fun i text => ⟨i, text, i⟩), none⟩,
           ⟨⟨dim, texts.map embed⟩,
            ⟨texts.length, texts.mapIdx (fun i text => ⟨i, text, i⟩), none⟩,
            texts.map embed⟩) := by
  unfold Cohere_Embedding.create_faiss_index get_embedding FaissIndex.add
    IndexFlatL2 save_index
  by_cases h1 : sameRowLengths (texts.map embed)
  · by_cases h2 : ∀ v ∈ texts.map embed, v.length = dim
    · simp only [if_pos h1, if_pos h2]
      refine ⟨fun h => ⟨h1, h2, (Except.ok.inj h).symm⟩, ?_⟩
      rintro ⟨-, -, rfl⟩
      rfl
    · simp only [if_pos h1, if_neg h2]
      refine ⟨fun h => Except.noConfusion h, ?_⟩
      rintro ⟨-, h2', -⟩
      exact absurd h2' h2
  · simp only [if_neg h1]
    refine ⟨fun h => Except.noConfusion h, ?_⟩
    rintro ⟨h1', -, -⟩
    exact absurd h1' h1

theorem openai_create_ok_iff {embed : String → Vec} {texts : List String}
    {r : FaissIndex × ChunksMetadata × PersistedIndex} :
    OpenAI_Embedding.create_faiss_index embed texts = .ok r ↔
      sameRowLengths (texts.map embed) ∧
      texts ≠ [] ∧
      r = (⟨((texts.map embed).headD []).length, texts.map embed⟩,
           ⟨texts.length, texts.mapIdx (fun i text => ⟨i, text, i⟩),
            some ((texts.map embed).headD []).length⟩,
           ⟨⟨((texts.map embed).headD []).length, texts.map embed⟩,
            ⟨texts.length, texts.mapIdx (fun i text => ⟨i, text, i⟩),
             some ((texts.map embed).headD []).length⟩,
            texts.map embed⟩) := by
  unfold OpenAI_Embedding.create_faiss_index get_embedding shape1 FaissIndex.add
    IndexFlatL2 save_index
  cases texts with
  | nil =>
    simp only [List.map_nil]
    rw [if_pos (by intro v hv; cases hv)]
    refine ⟨fun h => Except.noConfusion h, ?_⟩
    rintro ⟨-, h2, -⟩
    exact absurd rfl h2
  | cons t ts =>
    by_cases h1 : sameRowLengths ((t :: ts).map embed)
    · have h2 : ∀ v ∈ (t :: ts).map embed, v.length = (embed t).length :=
        fun v hv => h1 v hv (embed t) (by simp)
      simp only [List.map_cons] at h2 ⊢
      rw [if_pos (by simpa [List.map_cons] using h1)]
      simp only []
      rw [if_pos h2]
      refine ⟨fun h => ⟨by simpa [List.map_cons] using h1, by simp,
        (Except.ok.inj h).symm⟩, ?_⟩
      rintro ⟨-, -, rfl⟩
      rfl
    · rw [if_neg (by simpa [List.map_cons] using h1)]
      refine ⟨fun h => Except.noConfusion h, ?_⟩
      rintro ⟨h1', -, -⟩
      exact absurd h1' h1

theorem cohere_update_some_ok_iff {dim : Nat} {embed : String → Vec}
    {p p' : PersistedIndex} {new_texts : List String} :
    Cohere_Embedding.update_index dim embed p.slot new_texts = .ok p' ↔
      sameRowLengths (new_texts.map embed) ∧
      sameRowLengths (p.embeddings ++ new_texts.map embed) ∧
      (∀ v ∈ p.embeddings ++ new_texts.map embed, v.length = dim) ∧
      p' = ⟨⟨dim, p.embeddings ++ new_texts.map embed⟩,
            ⟨(p.metadata.chunks ++
                newChunksFrom p.metadata.chunks.length new_texts).length,
             p.metadata.chunks ++
               newChunksFrom p.metadata.chunks.length new_texts,
             p.metadata.embedding_dim⟩,
            p.embeddings ++ new_texts.map embed⟩ := by
  unfold Cohere_Embedding.update_index load_index PersistedIndex.slot
    get_embedding vstack FaissIndex.add IndexFlatL2 save_index newChunksFrom
  by_cases h1 : sameRowLengths (new_texts.map embed)
  · simp only [if_pos h1]
    by_cases h2 : sameRowLengths (p.embeddings ++ new_texts.map embed)
    · simp only [if_pos h2]
      by_cases h3 : ∀ v ∈ p.embeddings ++ new_texts.map embed, v.length = dim
      · simp only [if_pos h3]
        refine ⟨fun h => ⟨h1, h2, h3, (Except.ok.inj h).symm⟩, ?_⟩
        rintro ⟨-, -, -, rfl⟩
        rfl
      · simp only [if_neg h3]
        refine ⟨fun h => Except.noConfusion h, ?_⟩
        rintro ⟨-, -, h3', -⟩
        exact absurd h3' h3
    · simp only [if_neg h2]
      refine ⟨fun h => Except.noConfusion h, ?_⟩
      rintro ⟨-, h2', -, -⟩
      exact absurd h2' h2
  · simp only [if_neg h1]
    refine ⟨fun h => Except.noConfusion h, ?_⟩
    rintro ⟨h1', -, -, -⟩
    exact absurd h1' h1

theorem openai_update_some_ok_iff {embed : String → Vec}
    {p p' : PersistedIndex} {new_texts : List String} :
    OpenAI_Embedding.update_index embed p.slot new_texts = .ok p' ↔
      sameRowLengths (new_texts.map embed) ∧
      sameRowLengths (p.embeddings ++ new_texts.map embed) ∧
      p.embeddings ++ new_texts.map embed ≠ [] ∧
      p' = ⟨⟨((p.embeddings ++ new_texts.map embed).headD []).length,
             p.embeddings ++ new_texts.map embed⟩,
            ⟨(p.metadata.chunks ++
                newChunksFrom p.metadata.chunks.length new_texts).length,
             p.metadata.chunks ++
               newChunksFrom p.metadata.chunks.length new_texts,
             some ((p.embeddings ++ new_texts.map embed).headD []).length⟩,
            p.embeddings ++ new_texts.map embed⟩ := by
  unfold OpenAI_Embedding.update_index load_index PersistedIndex.slot
    get_embedding vstack shape1 FaissIndex.add IndexFlatL2 save_index
    newChunksFrom
  by_cases h1 : sameRowLengths (new_texts.map embed)
  · simp only [if_pos h1]
    by_cases h2 : sameRowLengths (p.embeddings ++ new_texts.map embed)
    · simp only [if_pos h2]
      cases hst : p.embeddings ++ new_texts.map embed with
      | nil =>
        simp only [hst]
        refine ⟨fun h => Except.noConfusion h, ?_⟩
        rintro ⟨-, -, h3, -⟩
        exact absurd rfl h3
      | cons v tl =>
        have h3 : ∀ w ∈ p.embeddings ++ new_texts.map embed, w.length = v.length :=
          fun w hw => h2 w hw v (by rw [hst]; exact List.mem_cons_self v tl)
        rw [hst] at h3
        simp only [hst]
        rw [if_pos h3]
        refine ⟨fun h => ⟨h1, hst ▸ h2, List.cons_ne_nil v tl,
          (Except.ok.inj h).symm⟩, ?_⟩
        rintro ⟨-, -, -, rfl⟩
        rfl
    · simp only [if_neg h2]
      refine ⟨fun h => Except.noConfusion h, ?_⟩
      rintro ⟨-, h2', -, -⟩
      exact absurd h2' h2
  · simp only [if_neg h1]
    refine ⟨fun h => Except.noConfusion h, ?_⟩
    rintro ⟨h1', -, -, -⟩
    exact absurd h1' h1

theorem length_newChunksFrom (s : Nat) (texts : List String) :
    (newChunksFrom s texts).length = texts.length := by
  simp [newChunksFrom]

theorem getD_newChunksFrom (s : Nat) (texts : List String) (i : Nat)
    (h : i < texts.length) :
    (newChunksFrom s texts).getD i dChunk = ⟨s + i, texts.getD i "", s + i⟩ := by
  have h' : i < (newChunksFrom s texts).length := by
    rw [length_newChunksFrom]; exact h
  rw [List.getD_eq_getElem _ _ h', List.getD_eq_getElem _ _ h]
  unfold newChunksFrom
  exact List.get_mapIdx texts (fun i text => Chunk.mk (s + i) text (s + i)) i h

theorem getD_createChunks (texts : List String) (i : Nat)
    (h : i < texts.length) :
    ((texts.mapIdx fun i text => Chunk.mk i text i).getD i dChunk) =
      ⟨i, texts.getD i "", i⟩ := by
  have h' : i < (texts.mapIdx fun i text => Chunk.mk i text i).length := by
    rw [List.length_mapIdx]; exact h
  rw [List.getD_eq_getElem _ _ h', List.getD_eq_getElem _ _ h]
  exact List.get_mapIdx texts (fun i text => Chunk.mk i text i) i h

theorem sameRowLengths_headD {rows : List Vec} (h : sameRowLengths rows) :
    ∀ v ∈ rows, v.length = (rows.headD []).length := by
  intro v hv
  cases rows with
  | nil => cases hv
  | cons w tl => exact h v hv w (List.mem_cons_self w tl)

theorem wf_cohere_create {dim : Nat} {embed : String → Vec}
    {texts : List String} {r : FaissIndex × ChunksMetadata × PersistedIndex}
    (h : Cohere_Embedding.create_faiss_index dim embed texts = .ok r) :
    WF r.2.2 := by
  rcases cohere_create_ok_iff.mp h with ⟨h1, h2, rfl⟩
  refine ⟨⟨?_, ?_, ?_⟩, rfl, h2⟩
  · simp
  · simp
  · intro j hj
    simp only [List.length_mapIdx] at hj
    rw [getD_createChunks texts j hj]
    exact ⟨rfl, rfl⟩

theorem wf_openai_create {embed : String → Vec} {texts : List String}
    {r : FaissIndex × ChunksMetadata × PersistedIndex}
    (h : OpenAI_Embedding.create_faiss_index embed texts = .ok r) :
    WF r.2.2 := by
  rcases openai_create_ok_iff.mp h with ⟨h1, h2, rfl⟩
  refine ⟨⟨?_, ?_, ?_⟩, rfl, sameRowLengths_headD h1⟩
  · simp
  · simp
  · intro j hj
    simp only [List.length_mapIdx] at hj
    rw [getD_createChunks texts j hj]
    exact ⟨rfl, rfl⟩

theorem wf_cohere_update {dim : Nat} {embed : String → Vec}
    {p p' : PersistedIndex} {new_texts : List String}
    (hw : CentralInv p)
    (h : Cohere_Embedding.update_index dim embed p.slot new_texts = .ok p') :
    WF p' := by
  rcases cohere_update_some_ok_iff.mp h with ⟨h1, h2, h3, rfl⟩
  rcases hw with ⟨c1, c2, c3⟩
  refine ⟨⟨rfl, ?_, ?_⟩, rfl, h3⟩
  · simp only [List.length_append, List.length_map, length_newChunksFrom]
    omega
  · intro j hj
    simp only [List.length_append, length_newChunksFrom] at hj
    by_cases hjl : j < p.metadata.chunks.length
    · rw [List.getD_append _ _ _ _ hjl]
      exact c3 j hjl
    · have hge : p.metadata.chunks.length ≤ j := Nat.le_of_not_lt hjl
      rw [List.getD_append_right _ _ _ _ hge]
      have hlt : j - p.metadata.chunks.length < new_texts.length := by omega
      rw [getD_newChunksFrom _ _ _ hlt]
      constructor <;> simp <;> omega

theorem wf_openai_update {embed : String → Vec} {p p' : PersistedIndex}
    {new_texts : List String}
    (hw : CentralInv p)
    (h : OpenAI_Embedding.update_index embed p.slot new_texts = .ok p') :
    WF p' := by
  rcases openai_update_some_ok_iff.mp h with ⟨h1, h2, h3, rfl⟩
  rcases hw with ⟨c1, c2, c3⟩
  refine ⟨⟨rfl, ?_, ?_⟩, rfl, sameRowLengths_headD h2⟩
  · simp only [List.length_append, List.length_map, length_newChunksFrom]
    omega
  · intro j hj
    simp only [List.length_append, length_newChunksFrom] at hj
    by_cases hjl : j < p.metadata.chunks.length
    · rw [List.getD_append _ _ _ _ hjl]
      exact c3 j hjl
    · have hge : p.metadata.chunks.length ≤ j := Nat.le_of_not_lt hjl
      rw [List.getD_append_right _ _ _ _ hge]
      have hlt : j - p.metadata.chunks.length < new_texts.length := by omega
      rw [getD_newChunksFrom _ _ _ hlt]
      constructor <;> simp <;> omega

/-- C1: after every successful `create_faiss_index` and every successful
`update_index` on a state satisfying the central invariant (both classes),
the saved state satisfies the central invariant: `total_chunks` equals the
length of the chunks list and the row count of the stored embedding array,
chunk ids are exactly `0..n-1` in insertion order, and
`chunks[i].embedding_index = i` for every `i`. -/
theorem total_chunks_invariant
    {dimC : Nat} {embedC : String → Vec} {textsC : List String}
    {rC : FaissIndex × ChunksMetadata × PersistedIndex}
    {embedO : String → Vec} {textsO : List String}
    {rO : FaissIndex × ChunksMetadata × PersistedIndex}
    {dimC' : Nat} {embedC' : String → Vec} {pC pC' : PersistedIndex}
    {newC : List String}
    {embedO' : String → Vec} {pO pO' : PersistedIndex} {newO : List String}
    (hc : Cohere_Embedding.create_faiss_index dimC embedC textsC = .ok rC)
    (ho : OpenAI_Embedding.create_faiss_index embedO textsO = .ok rO)
    (hic : CentralInv pC)
    (huc : Cohere_Embedding.update_index dimC' embedC' pC.slot newC = .ok pC')
    (hio : CentralInv pO)
    (huo : OpenAI_Embedding.update_index embedO' pO.slot newO = .ok pO') :
    CentralInv rC.2.2 ∧ CentralInv rO.2.2 ∧ CentralInv pC' ∧ CentralInv pO' :=
  ⟨(wf_cohere_create hc).1, (wf_openai_create ho).1,
   (wf_cohere_update hic huc).1, (wf_openai_update hio huo).1⟩

/-- Witness for C1 at concrete inputs: two-text creations and one-text
updates of the one-chunk state `pW1`. -/
theorem total_chunks_invariant_witness :
    Cohere_Embedding.create_faiss_index 2 embedA ["a"] =
      .ok (⟨2, [[1, 0]]⟩, ⟨1, [⟨0, "a", 0⟩], none⟩, pW1) ∧
    OpenAI_Embedding.create_faiss_index embedA ["a"] =
      .ok (⟨2, [[1, 0]]⟩, ⟨1, [⟨0, "a", 0⟩], some 2⟩,
        ⟨⟨2, [[1, 0]]⟩, ⟨1, [⟨0, "a", 0⟩], some 2⟩, [[1, 0]]⟩) ∧
    CentralInv pW1 ∧
    Cohere_Embedding.update_index 2 embedA pW1.slot ["b"] =
      .ok ⟨⟨2, [[1, 0], [1, 0]]⟩, ⟨2, [⟨0, "a", 0⟩, ⟨1, "b", 1⟩], none⟩,
        [[1, 0], [1, 0]]⟩ ∧
    OpenAI_Embedding.update_index embedA pW1.slot ["b"] =
      .ok ⟨⟨2, [[1, 0], [1, 0]]⟩, ⟨2, [⟨0, "a", 0⟩, ⟨1, "b", 1⟩], some 2⟩,
        [[1, 0], [1, 0]]⟩ ∧
    (CentralInv
      ((⟨2, [[1, 0]]⟩, ⟨1, [⟨0, "a", 0⟩], none⟩,
        pW1) : FaissIndex × ChunksMetadata × PersistedIndex).2.2 ∧
     CentralInv
      ((⟨2, [[1, 0]]⟩, ⟨1, [⟨0, "a", 0⟩], some 2⟩,
        ⟨⟨2, [[1, 0]]⟩, ⟨1, [⟨0, "a", 0⟩], some 2⟩, [[1, 0]]⟩) :
          FaissIndex × ChunksMetadata × PersistedIndex).2.2 ∧
     CentralInv
      (⟨⟨2, [[1, 0], [1, 0]]⟩, ⟨2, [⟨0, "a", 0⟩, ⟨1, "b", 1⟩], none⟩,
        [[1, 0], [1, 0]]⟩ : PersistedIndex) ∧
     CentralInv
      (⟨⟨2, [[1, 0], [1, 0]]⟩, ⟨2, [⟨0, "a", 0⟩, ⟨1, "b", 1⟩], some 2⟩,
        [[1, 0], [1, 0]]⟩ : PersistedIndex)) :=
  ⟨by decide, by decide, by decide, by decide, by decide,
   @total_chunks_invariant 2 embedA ["a"]
     (⟨2, [[1, 0]]⟩, ⟨1, [⟨0, "a", 0⟩], none⟩, pW1)
     embedA ["a"]
     (⟨2, [[1, 0]]⟩, ⟨1, [⟨0, "a", 0⟩], some 2⟩,
       ⟨⟨2, [[1, 0]]⟩, ⟨1, [⟨0, "a", 0⟩], some 2⟩, [[1, 0]]⟩)
     2 embedA pW1
     ⟨⟨2, [[1, 0], [1, 0]]⟩, ⟨2, [⟨0, "a", 0⟩, ⟨1, "b", 1⟩], none⟩,
       [[1, 0], [1, 0]]⟩
     ["b"] embedA pW1
     ⟨⟨2, [[1, 0], [1, 0]]⟩, ⟨2, [⟨0, "a", 0⟩, ⟨1, "b", 1⟩], some 2⟩,
       [[1, 0], [1, 0]]⟩
     ["b"]
     (by decide) (by decide) (by decide) (by decide) (by decide) (by decide)⟩

/-- C7: loading immediately after saving restores the index equal to the
original in vector content, chunk text, and chunk id ordering (the modelled
serialization — `faiss.write_index`/`json.dump`/`np.save` and their readers —
round-trips these components losslessly, float32 rows bit-for-bit). -/
theorem save_load_roundtrip (index : FaissIndex) (md : ChunksMetadata)
    (embeddings : List Vec) :
    load_index (save_index index md embeddings).slot =
      .ok (index, md, embeddings) ∧
    (save_index index md embeddings).embeddings = embeddings ∧
    (save_index index md embeddings).metadata.chunks.map Chunk.text =
      md.chunks.map Chunk.text ∧
    (save_index index md embeddings).metadata.chunks.map Chunk.id =
      md.chunks.map Chunk.id :=
  ⟨rfl, rfl, rfl, rfl⟩

/-- C6 counterexample: the corrupt state `pBad` records `total_chunks = 2`
over a single stored embedding row, yet `load_index` returns the mutually
inconsistent artifacts unchanged instead of failing with `CorruptIndex`. -/
theorem load_no_validation_cex :
    pBad.metadata.total_chunks = 2 ∧
    pBad.embeddings.length = 1 ∧
    load_index pBad.slot = .ok (pBad.faiss, pBad.metadata, pBad.embeddings) :=
  ⟨rfl, rfl, rfl⟩

/-- C6 amended: `load_index` performs no consistency validation at all — for
every persisted state, consistent or not, it returns the three artifacts
unchanged; its only failures are missing-file errors, namely faiss's untyped
`RuntimeError` when `{name}.faiss` is absent and `FileNotFoundError` when
the chunks JSON or the embeddings file is absent (no `CorruptIndex` exists
in the code). -/
theorem load_no_validation :
    (∀ p : PersistedIndex,
      load_index p.slot = .ok (p.faiss, p.metadata, p.embeddings)) ∧
    (∀ (m : Option ChunksMetadata) (e : Option (List Vec)),
      load_index ⟨none, m, e⟩ = .error .runtimeError) ∧
    (∀ (i : FaissIndex) (e : Option (List Vec)),
      load_index ⟨some i, none, e⟩ = .error .fileNotFound) ∧
    (∀ (i : FaissIndex) (m : ChunksMetadata),
      load_index ⟨some i, some m, none⟩ = .error .fileNotFound) :=
  ⟨fun _ => rfl, fun _ _ => rfl, fun _ _ => rfl, fun _ _ => rfl⟩

/-- C5 counterexample: on an index with no persisted artifacts,
`update_index` (both classes) surfaces faiss's untyped `RuntimeError` from
`faiss.read_index` — the first read of `load_index` — not a typed
`NotFound`, which exists nowhere in the code.  (No auto-create occurs here:
`except FileNotFoundError` does not match a `RuntimeError`.) -/
theorem update_missing_surfaces_cex :
    Cohere_Embedding.update_index 2 embedA ⟨none, none, none⟩ ["a"] =
      .error .runtimeError ∧
    OpenAI_Embedding.update_index embedA ⟨none, none, none⟩ ["a"] =
      .error .runtimeError ∧
    PyErr.runtimeError ≠ PyErr.notFound :=
  ⟨by decide, by decide, by decide⟩

/-- C5 amended: for an index name with no persisted artifacts,
`update_index` indeed does not auto-create and the load failure is surfaced
to the caller — but as faiss's untyped `RuntimeError` from reading the
missing `{name}.faiss` file, not as a typed `NotFound` (which does not exist
in the code).  The auto-create fallback fires only in the adjacent partial
case where the `.faiss` file is present but the chunks JSON or the
embeddings file is missing, since `except FileNotFoundError` catches exactly
that error. -/
theorem update_missing_surfaces
    (dim : Nat) (embedC embedO : String → Vec) (new_texts : List String)
    (mc : Option ChunksMetadata) (ec e1 : Option (List Vec))
    (i1 i2 : FaissIndex) (m2 : ChunksMetadata) :
    Cohere_Embedding.update_index dim embedC ⟨none, mc, ec⟩ new_texts =
      .error .runtimeError ∧
    OpenAI_Embedding.update_index embedO ⟨none, mc, ec⟩ new_texts =
      .error .runtimeError ∧
    Cohere_Embedding.update_index dim embedC ⟨some i1, none, e1⟩ new_texts =
      (Cohere_Embedding.create_faiss_index dim embedC new_texts).map
        (fun r => r.2.2) ∧
    OpenAI_Embedding.update_index embedO ⟨some i1, none, e1⟩ new_texts =
      (OpenAI_Embedding.create_faiss_index embedO new_texts).map
        (fun r => r.2.2) ∧
    Cohere_Embedding.update_index dim embedC ⟨some i2, some m2, none⟩
        new_texts =
      (Cohere_Embedding.create_faiss_index dim embedC new_texts).map
        (fun r => r.2.2) ∧
    OpenAI_Embedding.update_index embedO ⟨some i2, some m2, none⟩ new_texts =
      (OpenAI_Embedding.create_faiss_index embedO new_texts).map
        (fun r => r.2.2) :=
  ⟨rfl, rfl, rfl, rfl, rfl, rfl⟩

theorem cohere_update_mismatch {dim : Nat} {embed : String → Vec}
    {p : PersistedIndex} {new_texts : List String}
    (hlen : ∀ v ∈ p.embeddings, v.length = p.faiss.d)
    (hne : p.embeddings ≠ [])
    (hbad : ∃ v ∈ new_texts.map embed, v.length ≠ p.faiss.d) :
    Cohere_Embedding.update_index dim embed p.slot new_texts =
      .error .valueError := by
  unfold Cohere_Embedding.update_index load_index PersistedIndex.slot
    get_embedding vstack
  by_cases h1 : sameRowLengths (new_texts.map embed)
  · have h2 : ¬ sameRowLengths (p.embeddings ++ new_texts.map embed) := by
      rcases hbad with ⟨v, hv, hvd⟩
      rcases List.exists_mem_of_ne_nil p.embeddings hne with ⟨w, hw⟩
      intro hall
      exact hvd
        ((hall v (List.mem_append_right _ hv) w
          (List.mem_append_left _ hw)).trans (hlen w hw))
    simp only [if_pos h1, if_neg h2]
  · simp only [if_neg h1]

theorem openai_update_mismatch {embed : String → Vec}
    {p : PersistedIndex} {new_texts : List String}
    (hlen : ∀ v ∈ p.embeddings, v.length = p.faiss.d)
    (hne : p.embeddings ≠ [])
    (hbad : ∃ v ∈ new_texts.map embed, v.length ≠ p.faiss.d) :
    OpenAI_Embedding.update_index embed p.slot new_texts =
      .error .valueError := by
  unfold OpenAI_Embedding.update_index load_index PersistedIndex.slot
    get_embedding vstack
  by_cases h1 : sameRowLengths (new_texts.map embed)
  · have h2 : ¬ sameRowLengths (p.embeddings ++ new_texts.map embed) := by
      rcases hbad with ⟨v, hv, hvd⟩
      rcases List.exists_mem_of_ne_nil p.embeddings hne with ⟨w, hw⟩
      intro hall
      exact hvd
        ((hall v (List.mem_append_right _ hv) w
          (List.mem_append_left _ hw)).trans (hlen w hw))
    simp only [if_pos h1, if_neg h2]
  · simp only [if_neg h1]

/-- C4 counterexample: adding a wrong-length vector (length 3 against a
dimension-2 index) raises numpy's untyped `ValueError` from `np.vstack`,
which is not the `DimensionMismatch` the claim names — no such error kind
exists anywhere in the code. -/
theorem add_mismatch_cex :
    Cohere_Embedding.update_index 2 embedB pW1.slot ["c"] =
      .error .valueError ∧
    PyErr.valueError ≠ PyErr.dimensionMismatch :=
  ⟨by decide, by decide⟩

/-- C4 amended: calling `update_index` (either class) on an existing
non-empty index with any new vector whose length differs from the index's
dimension fails before anything is written — the persisted artifacts are
unchanged, exactly as the claim says — but the error raised is numpy's
untyped `ValueError` (from `np.array`/`np.vstack`), not a typed
`DimensionMismatch`. -/
theorem add_mismatch_amended {dimC : Nat} {embedC embedO : String → Vec}
    {p q : PersistedIndex} {newC newO : List String}
    (hwp : WF p) (hnep : p.embeddings ≠ [])
    (hbadC : ∃ v ∈ newC.map embedC, v.length ≠ p.faiss.d)
    (hwq : WF q) (hneq : q.embeddings ≠ [])
    (hbadO : ∃ v ∈ newO.map embedO, v.length ≠ q.faiss.d) :
    Cohere_Embedding.update_index dimC embedC p.slot newC =
      .error .valueError ∧
    Cohere_Embedding.update_index_fs dimC embedC p.slot newC = p.slot ∧
    OpenAI_Embedding.update_index embedO q.slot newO = .error .valueError ∧
    OpenAI_Embedding.update_index_fs embedO q.slot newO = q.slot := by
  have hc := @cohere_update_mismatch dimC embedC p newC hwp.2.2 hnep hbadC
  have ho := @openai_update_mismatch embedO q newO hwq.2.2 hneq hbadO
  refine ⟨hc, ?_, ho, ?_⟩
  · unfold Cohere_Embedding.update_index_fs
    rw [hc]
  · unfold OpenAI_Embedding.update_index_fs
    rw [ho]

/-- Witness for C4's amended theorem: the dimension-2 states `pW1`, `pW`
receive a length-3 vector from `embedB`. -/
theorem add_mismatch_amended_witness :
    WF pW1 ∧ pW1.embeddings ≠ [] ∧
    (∃ v ∈ ["c"].map embedB, v.length ≠ pW1.faiss.d) ∧
    WF pW ∧ pW.embeddings ≠ [] ∧
    (∃ v ∈ ["d"].map embedB, v.length ≠ pW.faiss.d) ∧
    (Cohere_Embedding.update_index 7 embedB pW1.slot ["c"] =
       .error .valueError ∧
     Cohere_Embedding.update_index_fs 7 embedB pW1.slot ["c"] = pW1.slot ∧
     OpenAI_Embedding.update_index embedB pW.slot ["d"] =
       .error .valueError ∧
     OpenAI_Embedding.update_index_fs embedB pW.slot ["d"] = pW.slot) :=
  ⟨by decide, by decide, by decide, by decide, by decide, by decide,
   @add_mismatch_amended 7 embedB embedB pW1 pW ["c"] ["d"]
     (by decide) (by decide) (by decide) (by decide) (by decide) (by decide)⟩

/-- C9 counterexample: the code performs no validation of incoming vectors
against the declared dimension — a mismatched batch dies inside `np.vstack`
with an untyped `ValueError`, not the `DimensionMismatch` the claim asserts
(no such check or error kind exists in `update_index`). -/
theorem dim_rederive_cex :
    OpenAI_Embedding.update_index embedB pW.slot ["e"] =
      .error .valueError ∧
    PyErr.valueError ≠ PyErr.dimensionMismatch :=
  ⟨by decide, by decide⟩

/-- C9 amended: the dimensionality of a non-empty index is indeed invariant
across every successful `update_index`: the Cohere class rebuilds with its
constructor dimension, and although the OpenAI class re-derives
`actual_dim = embeddings.shape[1]` from the stacked array (and overwrites the
metadata's `embedding_dim` with it), the re-derived value necessarily equals
the original dimension because `np.vstack` only succeeds on matching column
counts; mismatched batches are rejected, but by numpy's untyped `ValueError`
rather than a `DimensionMismatch` validation. -/
theorem dim_fixed_amended {dimC : Nat} {embedC embedO : String → Vec}
    {p p' q q' : PersistedIndex} {newC newO : List String}
    (hdim : p.faiss.d = dimC)
    (huc : Cohere_Embedding.update_index dimC embedC p.slot newC = .ok p')
    (hwq : WF q) (hneq : q.embeddings ≠ [])
    (huo : OpenAI_Embedding.update_index embedO q.slot newO = .ok q') :
    p'.faiss.d = p.faiss.d ∧
    q'.faiss.d = q.faiss.d ∧
    q'.metadata.embedding_dim = some q.faiss.d := by
  rcases cohere_update_some_ok_iff.mp huc with ⟨-, -, -, rfl⟩
  rcases openai_update_some_ok_iff.mp huo with ⟨-, -, -, rfl⟩
  refine ⟨hdim.symm, ?_, ?_⟩ <;>
  · cases hqe : q.embeddings with
    | nil => exact absurd hqe hneq
    | cons w tl =>
      simp only [hqe, List.cons_append, List.headD_cons]
      rw [hwq.2.2 w (by rw [hqe]; exact List.mem_cons_self w tl)]

/-- Witness for C9's amended theorem at concrete inputs. -/
theorem dim_fixed_amended_witness :
    pW1.faiss.d = 2 ∧
    Cohere_Embedding.update_index 2 embedA pW1.slot ["b"] =
      .ok ⟨⟨2, [[1, 0], [1, 0]]⟩, ⟨2, [⟨0, "a", 0⟩, ⟨1, "b", 1⟩], none⟩,
        [[1, 0], [1, 0]]⟩ ∧
    WF pW ∧ pW.embeddings ≠ [] ∧
    OpenAI_Embedding.update_index embedA pW.slot ["c"] =
      .ok ⟨⟨2, [[3, 0], [1, 0], [1, 0]]⟩,
        ⟨3, [⟨0, "a", 0⟩, ⟨1, "b", 1⟩, ⟨2, "c", 2⟩], some 2⟩,
        [[3, 0], [1, 0], [1, 0]]⟩ ∧
    ((⟨⟨2, [[1, 0], [1, 0]]⟩, ⟨2, [⟨0, "a", 0⟩, ⟨1, "b", 1⟩], none⟩,
        [[1, 0], [1, 0]]⟩ : PersistedIndex).faiss.d = pW1.faiss.d ∧
     (⟨⟨2, [[3, 0], [1, 0], [1, 0]]⟩,
        ⟨3, [⟨0, "a", 0⟩, ⟨1, "b", 1⟩, ⟨2, "c", 2⟩], some 2⟩,
        [[3, 0], [1, 0], [1, 0]]⟩ : PersistedIndex).faiss.d = pW.faiss.d ∧
     (⟨⟨2, [[3, 0], [1, 0], [1, 0]]⟩,
        ⟨3, [⟨0, "a", 0⟩, ⟨1, "b", 1⟩, ⟨2, "c", 2⟩], some 2⟩,
        [[3, 0], [1, 0], [1, 0]]⟩ : PersistedIndex).metadata.embedding_dim =
       some pW.faiss.d) :=
  ⟨by decide, by decide, by decide, by decide, by decide,
   @dim_fixed_amended 2 embedA embedA pW1
     ⟨⟨2, [[1, 0], [1, 0]]⟩, ⟨2, [⟨0, "a", 0⟩, ⟨1, "b", 1⟩], none⟩,
       [[1, 0], [1, 0]]⟩
     pW
     ⟨⟨2, [[3, 0], [1, 0], [1, 0]]⟩,
       ⟨3, [⟨0, "a", 0⟩, ⟨1, "b", 1⟩, ⟨2, "c", 2⟩], some 2⟩,
       [[3, 0], [1, 0], [1, 0]]⟩
     ["b"] ["c"]
     (by decide) (by decide) (by decide) (by decide) (by decide)⟩

/-- C8: `update_index` (both classes) is append-only: the new chunks list is
the old one extended by chunks whose ids continue from the previous count in
input order, the new embedding array is the old rows followed by the new rows
in order, every pre-existing chunk and row is unchanged at its old position,
and the appended chunk at offset `j` carries id `total_chunks + j` — nothing
is renumbered, removed, or reordered. -/
theorem add_append_only {dimC : Nat} {embedC embedO : String → Vec}
    {p p' q q' : PersistedIndex} {newC newO : List String}
    (hip : CentralInv p)
    (huc : Cohere_Embedding.update_index dimC embedC p.slot newC = .ok p')
    (hiq : CentralInv q)
    (huo : OpenAI_Embedding.update_index embedO q.slot newO = .ok q') :
    (p'.metadata.chunks =
       p.metadata.chunks ++ newChunksFrom p.metadata.total_chunks newC ∧
     p'.embeddings = p.embeddings ++ newC.map embedC ∧
     (∀ i < p.metadata.chunks.length,
       p'.metadata.chunks.getD i dChunk = p.metadata.chunks.getD i dChunk) ∧
     (∀ i < p.embeddings.length,
       p'.embeddings.getD i [] = p.embeddings.getD i []) ∧
     (∀ j < newC.length,
       p'.metadata.chunks.getD (p.metadata.total_chunks + j) dChunk =
         ⟨p.metadata.total_chunks + j, newC.getD j "",
          p.metadata.total_chunks + j⟩)) ∧
    (q'.metadata.chunks =
       q.metadata.chunks ++ newChunksFrom q.metadata.total_chunks newO ∧
     q'.embeddings = q.embeddings ++ newO.map embedO ∧
     (∀ i < q.metadata.chunks.length,
       q'.metadata.chunks.getD i dChunk = q.metadata.chunks.getD i dChunk) ∧
     (∀ i < q.embeddings.length,
       q'.embeddings.getD i [] = q.embeddings.getD i []) ∧
     (∀ j < newO.length,
       q'.metadata.chunks.getD (q.metadata.total_chunks + j) dChunk =
         ⟨q.metadata.total_chunks + j, newO.getD j "",
          q.metadata.total_chunks + j⟩)) := by
  rcases cohere_update_some_ok_iff.mp huc with ⟨-, -, -, rfl⟩
  rcases openai_update_some_ok_iff.mp huo with ⟨-, -, -, rfl⟩
  rcases hip with ⟨c1, -, -⟩
  rcases hiq with ⟨d1, -, -⟩
  constructor
  · refine ⟨by rw [c1], rfl, ?_, ?_, ?_⟩
    · intro i hi
      exact List.getD_append _ _ _ _ hi
    · intro i hi
      exact List.getD_append _ _ _ _ hi
    · intro j hj
      rw [c1]
      have hge : p.metadata.chunks.length ≤ p.metadata.chunks.length + j :=
        Nat.le_add_right _ _
      rw [List.getD_append_right _ _ _ _ hge, Nat.add_sub_cancel_left,
        getD_newChunksFrom _ _ _ hj]
  · refine ⟨by rw [d1], rfl, ?_, ?_, ?_⟩
    · intro i hi
      exact List.getD_append _ _ _ _ hi
    · intro i hi
      exact List.getD_append _ _ _ _ hi
    · intro j hj
      rw [d1]
      have hge : q.metadata.chunks.length ≤ q.metadata.chunks.length + j :=
        Nat.le_add_right _ _
      rw [List.getD_append_right _ _ _ _ hge, Nat.add_sub_cancel_left,
        getD_newChunksFrom _ _ _ hj]

/-- Witness for C8 at concrete inputs: one-text updates of `pW1` and `pW`. -/
theorem add_append_only_witness :
    CentralInv pW1 ∧
    Cohere_Embedding.update_index 2 embedA pW1.slot ["b"] =
      .ok ⟨⟨2, [[1, 0], [1, 0]]⟩, ⟨2, [⟨0, "a", 0⟩, ⟨1, "b", 1⟩], none⟩,
        [[1, 0], [1, 0]]⟩ ∧
    CentralInv pW ∧
    OpenAI_Embedding.update_index embedA pW.slot ["c"] =
      .ok ⟨⟨2, [[3, 0], [1, 0], [1, 0]]⟩,
        ⟨3, [⟨0, "a", 0⟩, ⟨1, "b", 1⟩, ⟨2, "c", 2⟩], some 2⟩,
        [[3, 0], [1, 0], [1, 0]]⟩ ∧
    ([⟨0, "a", 0⟩, ⟨1, "b", 1⟩] =
       pW1.metadata.chunks ++ newChunksFrom pW1.metadata.total_chunks ["b"] ∧
     [[1, 0], [1, 0]] = pW1.embeddings ++ (["b"].map embedA) ∧
     [⟨0, "a", 0⟩, ⟨1, "b", 1⟩, ⟨2, "c", 2⟩] =
       pW.metadata.chunks ++ newChunksFrom pW.metadata.total_chunks ["c"] ∧
     ([[3, 0], [1, 0], [1, 0]] : List Vec) =
       pW.embeddings ++ (["c"].map embedA)) := by
  have h := @add_append_only 2 embedA embedA pW1
    ⟨⟨2, [[1, 0], [1, 0]]⟩, ⟨2, [⟨0, "a", 0⟩, ⟨1, "b", 1⟩], none⟩,
      [[1, 0], [1, 0]]⟩
    pW
    ⟨⟨2, [[3, 0], [1, 0], [1, 0]]⟩,
      ⟨3, [⟨0, "a", 0⟩, ⟨1, "b", 1⟩, ⟨2, "c", 2⟩], some 2⟩,
      [[3, 0], [1, 0], [1, 0]]⟩
    ["b"] ["c"] (by decide) (by decide) (by decide) (by decide)
  exact ⟨by decide, by decide, by decide, by decide,
    h.1.1, h.1.2.1, h.2.1, h.2.2.1⟩

theorem buildResults_ok {chunks : List Chunk} :
    ∀ (pairs : List (ℚ × Nat)) (i0 : Nat),
    (∀ pr ∈ pairs, pr.2 < chunks.length) →
    ∃ rs, buildResults chunks pairs i0 = .ok rs ∧
      rs.length = pairs.length ∧
      ∀ j < pairs.length,
        rs.getD j dRes =
          mkResult (chunks.getD (pairs.getD j (0, 0)).2 dChunk)
            (pairs.getD j (0, 0)).1 (i0 + j + 1)
  | [], i0, _ => ⟨[], rfl, rfl, fun j hj => absurd hj (Nat.not_lt_zero j)⟩
  | (dist, idx) :: rest, i0, hall => by
    obtain ⟨rs, hrs, hlen, hget⟩ := buildResults_ok rest (i0 + 1)
      (fun pr hpr => hall pr (List.mem_cons_of_mem _ hpr))
    have hidx : idx < chunks.length := hall (dist, idx) (List.mem_cons_self _ _)
    refine ⟨mkResult (chunks.getD idx dChunk) dist (i0 + 1) :: rs, ?_, ?_, ?_⟩
    · simp only [buildResults]
      rw [List.getElem?_eq_getElem hidx, hrs, List.getD_eq_getElem _ _ hidx]
    · simp [hlen]
    · intro j hj
      cases j with
      | zero =>
        simp only [List.getD_cons_zero]
      | succ m =>
        have hm : m < rest.length := Nat.lt_of_succ_lt_succ hj
        simp only [List.getD_cons_succ]
        rw [hget m hm]
        have harith : i0 + 1 + m + 1 = i0 + (m + 1) + 1 := by omega
        rw [harith]

theorem length_scoredOf (q : Vec) (xb : List Vec) :
    (scoredOf q xb).length = xb.length := by
  simp [scoredOf]

theorem mem_scoredOf {q : Vec} {xb : List Vec} {pr : ℚ × Nat} :
    pr ∈ scoredOf q xb ↔
      pr.2 < xb.length ∧ pr.1 = sqdist q (xb.getD pr.2 []) := by
  unfold scoredOf
  rw [List.mem_map]
  constructor
  · rintro ⟨i, hi, rfl⟩
    rw [List.mem_range] at hi
    exact ⟨hi, rfl⟩
  · rintro ⟨h2, h1⟩
    refine ⟨pr.2, List.mem_range.mpr h2, ?_⟩
    rw [← h1]

theorem map_snd_scoredOf (q : Vec) (xb : List Vec) :
    (scoredOf q xb).map Prod.snd = List.range xb.length := by
  unfold scoredOf
  rw [List.map_map]
  exact List.map_id _

theorem searchCore_spec {embed : String → Vec} {p : PersistedIndex}
    {query : String} {k : Nat}
    (hw : WF p) (hq : (embed query).length = p.faiss.d) :
    ∃ rs, searchCore embed p.slot query k = .ok rs ∧
      ResultsSpec p (embed query) k rs := by
  obtain ⟨⟨c1, c2, c3⟩, hxb, hlen⟩ := hw
  have hcl : p.metadata.chunks.length = p.embeddings.length := by
    rw [← c1]
    exact c2
  have hsearch : p.faiss.search (embed query) k =
      .ok (knn (embed query) p.embeddings k) := by
    unfold FaissIndex.search
    rw [if_pos hq, hxb]
  have hcore : searchCore embed p.slot query k =
      buildResults p.metadata.chunks (knn (embed query) p.embeddings k) 0 := by
    unfold searchCore load_index PersistedIndex.slot
    dsimp only
    rw [hsearch]
  have hperm : (List.insertionSort distLe
      (scoredOf (embed query) p.embeddings)).Perm
      (scoredOf (embed query) p.embeddings) := List.perm_insertionSort _ _
  have hsorted : List.Pairwise distLe
      (List.insertionSort distLe (scoredOf (embed query) p.embeddings)) :=
    List.sorted_insertionSort distLe _
  have hlenS : (List.insertionSort distLe
      (scoredOf (embed query) p.embeddings)).length = p.embeddings.length := by
    rw [hperm.length_eq, length_scoredOf]
  have hmemS : ∀ pr ∈ List.insertionSort distLe
      (scoredOf (embed query) p.embeddings),
      pr.2 < p.embeddings.length ∧
      pr.1 = sqdist (embed query) (p.embeddings.getD pr.2 []) :=
    fun pr hpr => mem_scoredOf.mp (hperm.mem_iff.mp hpr)
  set S := List.insertionSort distLe (scoredOf (embed query) p.embeddings)
    with hS
  have hknn : knn (embed query) p.embeddings k = S.take k := rfl
  have hsubset : ∀ pr ∈ S.take k, pr ∈ S :=
    fun pr hpr => List.take_subset k S hpr
  have hall : ∀ pr ∈ S.take k, pr.2 < p.metadata.chunks.length := by
    intro pr hpr
    rw [hcl]
    exact (hmemS pr (hsubset pr hpr)).1
  obtain ⟨rs, hrs, hlenrs, hget⟩ := buildResults_ok (S.take k) 0 hall
  have hlenpairs : (S.take k).length = min k p.embeddings.length := by
    rw [List.length_take, hlenS]
  have hpairwise : List.Pairwise distLe (S.take k) :=
    hsorted.sublist (List.take_sublist _ _)
  have hnodupS : (S.map Prod.snd).Nodup := by
    have hp2 : (S.map Prod.snd).Perm (List.range p.embeddings.length) := by
      rw [← map_snd_scoredOf (embed query) p.embeddings]
      exact hperm.map Prod.snd
    exact hp2.nodup_iff.mpr (List.nodup_range _)
  have hnodup : ((S.take k).map Prod.snd).Nodup := by
    rw [List.map_take]
    exact hnodupS.sublist (List.take_sublist _ _)
  have hgd : ∀ j, (hj : j < (S.take k).length) →
      (S.take k).getD j (0, 0) = (S.take k).get ⟨j, hj⟩ := by
    intro j hj
    rw [List.getD_eq_getElem _ _ hj, List.get_eq_getElem]
  have hmemget : ∀ j, (hj : j < (S.take k).length) →
      (S.take k).getD j (0, 0) ∈ S.take k := by
    intro j hj
    rw [List.getD_eq_getElem _ _ hj]
    exact List.getElem_mem _
  have hfield : ∀ j, (hj : j < (S.take k).length) →
      ((S.take k).getD j (0, 0)).2 < p.metadata.chunks.length ∧
      ((S.take k).getD j (0, 0)).2 < p.embeddings.length ∧
      ((S.take k).getD j (0, 0)).1 =
        sqdist (embed query)
          (p.embeddings.getD ((S.take k).getD j (0, 0)).2 []) := by
    intro j hj
    have hm := hmemS _ (hsubset _ (hmemget j hj))
    exact ⟨hcl ▸ hm.1, hm.1, hm.2⟩
  have hid : ∀ j, (hj : j < (S.take k).length) →
      (p.metadata.chunks.getD ((S.take k).getD j (0, 0)).2 dChunk).id =
        ((S.take k).getD j (0, 0)).2 := by
    intro j hj
    exact (c3 _ (hfield j hj).1).1
  refine ⟨rs, by rw [hcore, hknn, hrs], ?_⟩
  have hlrs : rs.length = min k p.embeddings.length := by
    rw [hlenrs, hlenpairs]
  refine ⟨hlrs, ?_, ?_, ?_, ?_, ?_⟩
  · intro j hj
    have hj' : j < (S.take k).length := by rw [← hlenrs]; exact hj
    rw [hget j hj']
    simp [mkResult]
  · intro j hj
    have hj' : j < (S.take k).length := by rw [← hlenrs]; exact hj
    rw [hget j hj']
    rfl
  · intro j hj
    have hj' : j < (S.take k).length := by rw [← hlenrs]; exact hj
    rw [hget j hj']
    obtain ⟨hf1, hf2, hf3⟩ := hfield j hj'
    refine ⟨?_, ?_, ?_, ?_⟩
    · show (p.metadata.chunks.getD _ dChunk).id < p.metadata.chunks.length
      rw [hid j hj']
      exact hf1
    · show (p.metadata.chunks.getD _ dChunk).id < p.embeddings.length
      rw [hid j hj']
      exact hf2
    · show ((S.take k).getD j (0, 0)).1 =
        sqdist (embed query)
          (p.embeddings.getD (p.metadata.chunks.getD _ dChunk).id [])
      rw [hid j hj']
      exact hf3
    · show (p.metadata.chunks.getD _ dChunk).text =
        (p.metadata.chunks.getD (p.metadata.chunks.getD _ dChunk).id
          dChunk).text
      rw [hid j hj']
  · intro j j' hjj' hj'
    have hj'b : j' < (S.take k).length := by rw [← hlenrs]; exact hj'
    have hjb : j < (S.take k).length := Nat.lt_trans hjj' hj'b
    have hj2 : j < rs.length := Nat.lt_trans hjj' hj'
    rw [hget j hjb, hget j' hj'b]
    have hrel : distLe ((S.take k).getD j (0, 0))
        ((S.take k).getD j' (0, 0)) := by
      rw [hgd j hjb, hgd j' hj'b, List.get_eq_getElem, List.get_eq_getElem]
      exact (List.pairwise_iff_getElem.mp hpairwise) j j' hjb hj'b hjj'
    have hne : ((S.take k).getD j (0, 0)).2 ≠
        ((S.take k).getD j' (0, 0)).2 := by
      rw [hgd j hjb, hgd j' hj'b, List.get_eq_getElem, List.get_eq_getElem]
      intro heq
      have hmj : j < ((S.take k).map Prod.snd).length := by
        rw [List.length_map]
        exact hjb
      have hmj' : j' < ((S.take k).map Prod.snd).length := by
        rw [List.length_map]
        exact hj'b
      have hmapeq : ((S.take k).map Prod.snd)[j] =
          ((S.take k).map Prod.snd)[j'] := by
        rw [List.getElem_map, List.getElem_map]
        exact heq
      have : j = j' := hnodup.getElem_inj_iff.mp hmapeq
      omega
    rcases hrel with h | ⟨h1, h2⟩
    · left
      show ((S.take k).getD j (0, 0)).1 < ((S.take k).getD j' (0, 0)).1
      exact h
    · right
      refine ⟨h1, ?_⟩
      show (p.metadata.chunks.getD _ dChunk).id <
        (p.metadata.chunks.getD _ dChunk).id
      rw [hid j hjb, hid j' hj'b]
      exact Nat.lt_of_le_of_ne h2 hne
  · intro m hm hnotin j hj
    have hjb : j < (S.take k).length := by rw [← hlenrs]; exact hj
    have hpm : (sqdist (embed query) (p.embeddings.getD m []), m) ∈ S := by
      rw [hperm.mem_iff]
      exact mem_scoredOf.mpr ⟨hm, rfl⟩
    have hpmnot : (sqdist (embed query) (p.embeddings.getD m []), m) ∉
        S.take k := by
      intro hin
      obtain ⟨j0, hj0, hj0e⟩ := List.mem_iff_getElem.mp hin
      have hj0r : j0 < rs.length := by rw [hlenrs]; exact hj0
      apply hnotin j0 hj0r
      rw [hget j0 hj0]
      show (p.metadata.chunks.getD _ dChunk).id = m
      rw [hid j0 hj0]
      rw [List.getD_eq_getElem _ _ hj0, hj0e]
    have hpmdrop : (sqdist (embed query) (p.embeddings.getD m []), m) ∈
        S.drop k := by
      have := List.take_append_drop k S
      rcases List.mem_append.mp (by rw [this]; exact hpm) with h | h
      · exact absurd h hpmnot
      · exact h
    have hcross : ∀ a ∈ S.take k, ∀ b ∈ S.drop k, distLe a b := by
      have hsp : List.Pairwise distLe (S.take k ++ S.drop k) := by
        rw [List.take_append_drop]
        exact hsorted
      exact (List.pairwise_append.mp hsp).2.2
    have hrel := hcross _ (hmemget j hjb) _ hpmdrop
    rw [hget j hjb]
    show distLe
      (((S.take k).getD j (0, 0)).1,
       (p.metadata.chunks.getD ((S.take k).getD j (0, 0)).2 dChunk).id)
      (sqdist (embed query) (p.embeddings.getD m []), m)
    rw [hid j hjb]
    exact hrel

/-- C2: on every non-empty index and query of the index's dimension, `search`
(both classes, identical code) succeeds and its results satisfy
`ResultsSpec`: squared Euclidean distance to every stored vector, the `k`
smallest in ascending order with ties broken by the lower chunk id (hence
deterministic — the model is a pure function and repeated calls are
literally the same value), each result carrying its chunk's id and text, its
distance, `score = 1/(1 + distance)`, and 1-based rank equal to its
position.  The FAISS scan kernel is modelled from the spec (see `knn`); the
result assembly is the source's loop. -/
theorem search_spec {embed : String → Vec} {p : PersistedIndex}
    {query : String} {k : Nat}
    (hw : WF p) (hq : (embed query).length = p.faiss.d)
    (_hne : 0 < p.embeddings.length) :
    ∃ rs, Cohere_Embedding.search embed p.slot query k = .ok rs ∧
      OpenAI_Embedding.search embed p.slot query k = .ok rs ∧
      ResultsSpec p (embed query) k rs := by
  obtain ⟨rs, h1, h2⟩ := searchCore_spec hw hq
  exact ⟨rs, h1, h1, h2⟩

/-- Witness for C2 on the concrete two-chunk state `pW`. -/
theorem search_spec_witness :
    WF pW ∧ (embedA "q").length = pW.faiss.d ∧ 0 < pW.embeddings.length ∧
    (∃ rs, Cohere_Embedding.search embedA pW.slot "q" 1 = .ok rs ∧
      OpenAI_Embedding.search embedA pW.slot "q" 1 = .ok rs ∧
      ResultsSpec pW (embedA "q") 1 rs) :=
  ⟨by decide, by decide, by decide,
   @search_spec embedA pW "q" 1 (by decide) (by decide) (by decide)⟩

/-- C3: `search` (both classes) on an index with `n < k` stored vectors
returns exactly `n` results — no padding, no failure — and on an index with
zero stored vectors returns the empty sequence without error. -/
theorem search_small_index {embed : String → Vec} {p : PersistedIndex}
    {query : String} {k : Nat}
    (hw : WF p) (hq : (embed query).length = p.faiss.d) :
    (p.embeddings.length < k →
      ∃ rs, Cohere_Embedding.search embed p.slot query k = .ok rs ∧
        OpenAI_Embedding.search embed p.slot query k = .ok rs ∧
        rs.length = p.embeddings.length) ∧
    (p.embeddings.length = 0 →
      Cohere_Embedding.search embed p.slot query k = .ok [] ∧
      OpenAI_Embedding.search embed p.slot query k = .ok []) := by
  obtain ⟨rs, h1, hspec⟩ := searchCore_spec hw hq
  constructor
  · intro hlt
    refine ⟨rs, h1, h1, ?_⟩
    rw [hspec.1]
    exact Nat.min_eq_right (Nat.le_of_lt hlt)
  · intro h0
    have hlen0 : rs.length = 0 := by
      rw [hspec.1, h0]
      exact Nat.min_zero k
    have hnil : rs = [] := List.eq_nil_of_length_eq_zero hlen0
    subst hnil
    exact ⟨h1, h1⟩

/-- Witness for C3 on the concrete empty dimension-2 state. -/
theorem search_small_index_witness :
    WF (⟨⟨2, []⟩, ⟨0, [], none⟩, []⟩ : PersistedIndex) ∧
    (embedA "q").length =
      (⟨⟨2, []⟩, ⟨0, [], none⟩, []⟩ : PersistedIndex).faiss.d ∧
    (((⟨⟨2, []⟩, ⟨0, [], none⟩, []⟩ : PersistedIndex).embeddings.length < 3 →
      ∃ rs,
        Cohere_Embedding.search embedA
          (⟨⟨2, []⟩, ⟨0, [], none⟩, []⟩ : PersistedIndex).slot "q" 3 =
            .ok rs ∧
        OpenAI_Embedding.search embedA
          (⟨⟨2, []⟩, ⟨0, [], none⟩, []⟩ : PersistedIndex).slot "q" 3 =
            .ok rs ∧
        rs.length =
          (⟨⟨2, []⟩, ⟨0, [], none⟩, []⟩ : PersistedIndex).embeddings.length) ∧
     ((⟨⟨2, []⟩, ⟨0, [], none⟩, []⟩ : PersistedIndex).embeddings.length = 0 →
      Cohere_Embedding.search embedA
        (⟨⟨2, []⟩, ⟨0, [], none⟩, []⟩ : PersistedIndex).slot "q" 3 =
          .ok [] ∧
      OpenAI_Embedding.search embedA
        (⟨⟨2, []⟩, ⟨0, [], none⟩, []⟩ : PersistedIndex).slot "q" 3 =
          .ok [])) :=
  ⟨by decide, by decide,
   @search_small_index embedA ⟨⟨2, []⟩, ⟨0, [], none⟩, []⟩ "q" 3
     (by decide) (by decide)⟩

theorem mapIdx_chunks_append (texts new : List String) :
    (texts ++ new).mapIdx (fun i text => Chunk.mk i text i) =
      texts.mapIdx (fun i text => Chunk.mk i text i) ++
        newChunksFrom texts.length new := by
  apply List.ext_getElem
  · simp [newChunksFrom]
  · intro i h1 h2
    have hi : i < (texts ++ new).length := by
      rw [List.length_mapIdx] at h1
      exact h1
    have hL : ((texts ++ new).mapIdx (fun i text => Chunk.mk i text i))[i] =
        Chunk.mk i ((texts ++ new).get ⟨i, hi⟩) i :=
      List.get_mapIdx (texts ++ new) (fun i text => Chunk.mk i text i) i hi
    rw [hL, List.get_eq_getElem]
    by_cases hit : i < texts.length
    · have hmi : i < (texts.mapIdx fun i text => Chunk.mk i text i).length := by
        rw [List.length_mapIdx]
        exact hit
      rw [List.getElem_append_left hmi, List.getElem_append_left hit]
      exact (List.get_mapIdx texts (fun i text => Chunk.mk i text i) i hit).symm
    · have hge : (texts.mapIdx fun i text => Chunk.mk i text i).length ≤ i := by
        rw [List.length_mapIdx]
        omega
      have hge2 : texts.length ≤ i := by omega
      rw [List.getElem_append_right hge, List.getElem_append_right hge2]
      have hsub : i - texts.length < new.length := by
        rw [List.length_append] at hi
        omega
      have hsub2 : i -
          (texts.mapIdx fun i text => Chunk.mk i text i).length <
          (newChunksFrom texts.length new).length := by
        rw [List.length_mapIdx, length_newChunksFrom]
        omega
      simp only [List.length_mapIdx]
      have hsub3 : i - texts.length < (newChunksFrom texts.length new).length := by
        rw [length_newChunksFrom]
        omega
      have hR : (newChunksFrom texts.length new)[i - texts.length] =
          Chunk.mk (texts.length + (i - texts.length))
            (new.get ⟨i - texts.length, hsub⟩)
            (texts.length + (i - texts.length)) := by
        unfold newChunksFrom
        exact List.get_mapIdx new
          (fun j text => Chunk.mk (texts.length + j) text (texts.length + j))
          (i - texts.length) hsub
      rw [hR, List.get_eq_getElem]
      have harith : texts.length + (i - texts.length) = i := by omega
      rw [harith]

/-- C10: after a successful `update_index` on an index built by
`create_faiss_index`, the searchable FAISS structure is a flat L2 index
rebuilt from scratch over the full concatenated embedding store (previously
stored rows followed by the new rows, in order), and the resulting persisted
state is identical to the one a single `create_faiss_index` over the
complete text list saves (timestamps are not modelled; they do not influence
search) — hence every subsequent search returns exactly the same results.
Both classes. -/
theorem update_rebuild_equiv
    {dim : Nat} {embedC : String → Vec} {textsC newC : List String}
    {r1 : FaissIndex × ChunksMetadata × PersistedIndex} {p2 : PersistedIndex}
    {r3 : FaissIndex × ChunksMetadata × PersistedIndex}
    {embedO : String → Vec} {textsO newO : List String}
    {s1 : FaissIndex × ChunksMetadata × PersistedIndex} {q2 : PersistedIndex}
    {s3 : FaissIndex × ChunksMetadata × PersistedIndex}
    (hc1 : Cohere_Embedding.create_faiss_index dim embedC textsC = .ok r1)
    (hcu : Cohere_Embedding.update_index dim embedC r1.2.2.slot newC =
      .ok p2)
    (hc3 : Cohere_Embedding.create_faiss_index dim embedC (textsC ++ newC) =
      .ok r3)
    (ho1 : OpenAI_Embedding.create_faiss_index embedO textsO = .ok s1)
    (hou : OpenAI_Embedding.update_index embedO s1.2.2.slot newO = .ok q2)
    (ho3 : OpenAI_Embedding.create_faiss_index embedO (textsO ++ newO) =
      .ok s3) :
    p2.faiss = ⟨dim, r1.2.2.embeddings ++ newC.map embedC⟩ ∧
    p2 = r3.2.2 ∧
    (∀ query k, Cohere_Embedding.search embedC p2.slot query k =
      Cohere_Embedding.search embedC r3.2.2.slot query k) ∧
    q2.faiss.xb = s1.2.2.embeddings ++ newO.map embedO ∧
    q2 = s3.2.2 ∧
    (∀ query k, OpenAI_Embedding.search embedO q2.slot query k =
      OpenAI_Embedding.search embedO s3.2.2.slot query k) := by
  rcases cohere_create_ok_iff.mp hc1 with ⟨a1, a2, rfl⟩
  rcases cohere_update_some_ok_iff.mp hcu with ⟨b1, b2, b3, rfl⟩
  rcases cohere_create_ok_iff.mp hc3 with ⟨e1, e2, rfl⟩
  rcases openai_create_ok_iff.mp ho1 with ⟨f1, f2, rfl⟩
  rcases openai_update_some_ok_iff.mp hou with ⟨g1, g2, g3, rfl⟩
  rcases openai_create_ok_iff.mp ho3 with ⟨j1, j2, rfl⟩
  have hrowsC : textsC.map embedC ++ newC.map embedC =
      (textsC ++ newC).map embedC := (List.map_append embedC textsC newC).symm
  have hchC : (textsC.mapIdx fun i text => Chunk.mk i text i) ++
      newChunksFrom (textsC.mapIdx fun i text => Chunk.mk i text i).length
        newC = (textsC ++ newC).mapIdx fun i text => Chunk.mk i text i := by
    rw [List.length_mapIdx]
    exact (mapIdx_chunks_append textsC newC).symm
  have hrowsO : textsO.map embedO ++ newO.map embedO =
      (textsO ++ newO).map embedO := (List.map_append embedO textsO newO).symm
  have hchO : (textsO.mapIdx fun i text => Chunk.mk i text i) ++
      newChunksFrom (textsO.mapIdx fun i text => Chunk.mk i text i).length
        newO = (textsO ++ newO).mapIdx fun i text => Chunk.mk i text i := by
    rw [List.length_mapIdx]
    exact (mapIdx_chunks_append textsO newO).symm
  have hpC : (⟨⟨dim, textsC.map embedC ++ newC.map embedC⟩,
      ⟨((textsC.mapIdx fun i text => Chunk.mk i text i) ++
          newChunksFrom
            (textsC.mapIdx fun i text => Chunk.mk i text i).length newC).length,
       (textsC.mapIdx fun i text => Chunk.mk i text i) ++
         newChunksFrom
           (textsC.mapIdx fun i text => Chunk.mk i text i).length newC,
       none⟩,
      textsC.map embedC ++ newC.map embedC⟩ : PersistedIndex) =
      ⟨⟨dim, (textsC ++ newC).map embedC⟩,
       ⟨(textsC ++ newC).length,
        (textsC ++ newC).mapIdx fun i text => Chunk.mk i text i, none⟩,
       (textsC ++ newC).map embedC⟩ := by
    simp only [PersistedIndex.mk.injEq, FaissIndex.mk.injEq,
      ChunksMetadata.mk.injEq]
    refine ⟨⟨trivial, hrowsC⟩, ⟨?_, hchC, trivial⟩, hrowsC⟩
    rw [hchC, List.length_mapIdx]
  have hpO : (⟨⟨((textsO.map embedO ++ newO.map embedO).headD []).length,
      textsO.map embedO ++ newO.map embedO⟩,
      ⟨((textsO.mapIdx fun i text => Chunk.mk i text i) ++
          newChunksFrom
            (textsO.mapIdx fun i text => Chunk.mk i text i).length newO).length,
       (textsO.mapIdx fun i text => Chunk.mk i text i) ++
         newChunksFrom
           (textsO.mapIdx fun i text => Chunk.mk i text i).length newO,
       some ((textsO.map embedO ++ newO.map embedO).headD []).length⟩,
      textsO.map embedO ++ newO.map embedO⟩ : PersistedIndex) =
      ⟨⟨(((textsO ++ newO).map embedO).headD []).length,
        (textsO ++ newO).map embedO⟩,
       ⟨(textsO ++ newO).length,
        (textsO ++ newO).mapIdx fun i text => Chunk.mk i text i,
        some (((textsO ++ newO).map embedO).headD []).length⟩,
       (textsO ++ newO).map embedO⟩ := by
    simp only [PersistedIndex.mk.injEq, FaissIndex.mk.injEq,
      ChunksMetadata.mk.injEq]
    refine ⟨⟨by rw [hrowsO], hrowsO⟩, ⟨?_, hchO, by rw [hrowsO]⟩, hrowsO⟩
    rw [hchO, List.length_mapIdx]
  exact ⟨rfl, hpC, fun query k => by rw [hpC], rfl, hpO,
    fun query k => by rw [hpO]⟩

/-- Witness for C10 at concrete inputs: create on `["a"]`, update with
`["b"]`, versus create on `["a", "b"]`, for both classes. -/
theorem update_rebuild_equiv_witness :
    Cohere_Embedding.create_faiss_index 2 embedA ["a"] =
      .ok (⟨2, [[1, 0]]⟩, ⟨1, [⟨0, "a", 0⟩], none⟩, pW1) ∧
    Cohere_Embedding.update_index 2 embedA pW1.slot ["b"] =
      .ok ⟨⟨2, [[1, 0], [1, 0]]⟩, ⟨2, [⟨0, "a", 0⟩, ⟨1, "b", 1⟩], none⟩,
        [[1, 0], [1, 0]]⟩ ∧
    Cohere_Embedding.create_faiss_index 2 embedA ["a", "b"] =
      .ok (⟨2, [[1, 0], [1, 0]]⟩, ⟨2, [⟨0, "a", 0⟩, ⟨1, "b", 1⟩], none⟩,
        ⟨⟨2, [[1, 0], [1, 0]]⟩, ⟨2, [⟨0, "a", 0⟩, ⟨1, "b", 1⟩], none⟩,
          [[1, 0], [1, 0]]⟩) ∧
    OpenAI_Embedding.create_faiss_index embedA ["a"] =
      .ok (⟨2, [[1, 0]]⟩, ⟨1, [⟨0, "a", 0⟩], some 2⟩,
        ⟨⟨2, [[1, 0]]⟩, ⟨1, [⟨0, "a", 0⟩], some 2⟩, [[1, 0]]⟩) ∧
    OpenAI_Embedding.update_index embedA
      (⟨⟨2, [[1, 0]]⟩, ⟨1, [⟨0, "a", 0⟩], some 2⟩,
        [[1, 0]]⟩ : PersistedIndex).slot ["b"] =
      .ok ⟨⟨2, [[1, 0], [1, 0]]⟩, ⟨2, [⟨0, "a", 0⟩, ⟨1, "b", 1⟩], some 2⟩,
        [[1, 0], [1, 0]]⟩ ∧
    OpenAI_Embedding.create_faiss_index embedA ["a", "b"] =
      .ok (⟨2, [[1, 0], [1, 0]]⟩, ⟨2, [⟨0, "a", 0⟩, ⟨1, "b", 1⟩], some 2⟩,
        ⟨⟨2, [[1, 0], [1, 0]]⟩, ⟨2, [⟨0, "a", 0⟩, ⟨1, "b", 1⟩], some 2⟩,
          [[1, 0], [1, 0]]⟩) ∧
    ((⟨⟨2, [[1, 0], [1, 0]]⟩, ⟨2, [⟨0, "a", 0⟩, ⟨1, "b", 1⟩], none⟩,
        [[1, 0], [1, 0]]⟩ : PersistedIndex).faiss =
       ⟨2, pW1.embeddings ++ (["b"].map embedA)⟩ ∧
     (⟨⟨2, [[1, 0], [1, 0]]⟩, ⟨2, [⟨0, "a", 0⟩, ⟨1, "b", 1⟩], none⟩,
        [[1, 0], [1, 0]]⟩ : PersistedIndex) =
       ((⟨2, [[1, 0], [1, 0]]⟩, ⟨2, [⟨0, "a", 0⟩, ⟨1, "b", 1⟩], none⟩,
         ⟨⟨2, [[1, 0], [1, 0]]⟩, ⟨2, [⟨0, "a", 0⟩, ⟨1, "b", 1⟩], none⟩,
           [[1, 0], [1, 0]]⟩) :
          FaissIndex × ChunksMetadata × PersistedIndex).2.2 ∧
     (∀ query k,
       Cohere_Embedding.search embedA
         (⟨⟨2, [[1, 0], [1, 0]]⟩, ⟨2, [⟨0, "a", 0⟩, ⟨1, "b", 1⟩], none⟩,
           [[1, 0], [1, 0]]⟩ : PersistedIndex).slot query k =
       Cohere_Embedding.search embedA
         (⟨⟨2, [[1, 0], [1, 0]]⟩, ⟨2, [⟨0, "a", 0⟩, ⟨1, "b", 1⟩], none⟩,
           [[1, 0], [1, 0]]⟩ : PersistedIndex).slot query k) ∧
     (⟨⟨2, [[1, 0], [1, 0]]⟩, ⟨2, [⟨0, "a", 0⟩, ⟨1, "b", 1⟩], some 2⟩,
        [[1, 0], [1, 0]]⟩ : PersistedIndex).faiss.xb =
       (⟨⟨2, [[1, 0]]⟩, ⟨1, [⟨0, "a", 0⟩], some 2⟩,
         [[1, 0]]⟩ : PersistedIndex).embeddings ++ (["b"].map embedA) ∧
     (⟨⟨2, [[1, 0], [1, 0]]⟩, ⟨2, [⟨0, "a", 0⟩, ⟨1, "b", 1⟩], some 2⟩,
        [[1, 0], [1, 0]]⟩ : PersistedIndex) =
       ((⟨2, [[1, 0], [1, 0]]⟩, ⟨2, [⟨0, "a", 0⟩, ⟨1, "b", 1⟩], some 2⟩,
         ⟨⟨2, [[1, 0], [1, 0]]⟩, ⟨2, [⟨0, "a", 0⟩, ⟨1, "b", 1⟩], some 2⟩,
           [[1, 0], [1, 0]]⟩) :
          FaissIndex × ChunksMetadata × PersistedIndex).2.2 ∧
     (∀ query k,
       OpenAI_Embedding.search embedA
         (⟨⟨2, [[1, 0], [1, 0]]⟩, ⟨2, [⟨0, "a", 0⟩, ⟨1, "b", 1⟩], some 2⟩,
           [[1, 0], [1, 0]]⟩ : PersistedIndex).slot query k =
       OpenAI_Embedding.search embedA
         (⟨⟨2, [[1, 0], [1, 0]]⟩, ⟨2, [⟨0, "a", 0⟩, ⟨1, "b", 1⟩], some 2⟩,
           [[1, 0], [1, 0]]⟩ : PersistedIndex).slot query k)) :=
  ⟨by decide, by decide, by decide, by decide, by decide, by decide,
   @update_rebuild_equiv 2 embedA ["a"] ["b"]
     (⟨2, [[1, 0]]⟩, ⟨1, [⟨0, "a", 0⟩], none⟩, pW1)
     ⟨⟨2, [[1, 0], [1, 0]]⟩, ⟨2, [⟨0, "a", 0⟩, ⟨1, "b", 1⟩], none⟩,
       [[1, 0], [1, 0]]⟩
     (⟨2, [[1, 0], [1, 0]]⟩, ⟨2, [⟨0, "a", 0⟩, ⟨1, "b", 1⟩], none⟩,
       ⟨⟨2, [[1, 0], [1, 0]]⟩, ⟨2, [⟨0, "a", 0⟩, ⟨1, "b", 1⟩], none⟩,
         [[1, 0], [1, 0]]⟩)
     embedA ["a"] ["b"]
     (⟨2, [[1, 0]]⟩, ⟨1, [⟨0, "a", 0⟩], some 2⟩,
       ⟨⟨2, [[1, 0]]⟩, ⟨1, [⟨0, "a", 0⟩], some 2⟩, [[1, 0]]⟩)
     ⟨⟨2, [[1, 0], [1, 0]]⟩, ⟨2, [⟨0, "a", 0⟩, ⟨1, "b", 1⟩], some 2⟩,
       [[1, 0], [1, 0]]⟩
     (⟨2, [[1, 0], [1, 0]]⟩, ⟨2, [⟨0, "a", 0⟩, ⟨1, "b", 1⟩], some 2⟩,
       ⟨⟨2, [[1, 0], [1, 0]]⟩, ⟨2, [⟨0, "a", 0⟩, ⟨1, "b", 1⟩], some 2⟩,
         [[1, 0], [1, 0]]⟩)
     (by decide) (by decide) (by decide) (by decide) (by decide) (by decide)⟩
